import Mathlib

/-!
Verification of the smplog terminal text-styling and layout engine.

Go strings are embedded as lists of Unicode code points (`GoStr`), since every
operation verified here (clipping, padding, centering, colorizing, stripping)
works rune-by-rune; `utf8.RuneCountInString` becomes `List.length`.  Go `int`
values are embedded as `Int`.  Each component renderer is modelled as a pure
function from a configuration snapshot and a parameter record to the byte
sequence it writes to the sink (`fmt.Fprintln` appends one newline character).
-/

namespace Smplog

/-- A Go string, viewed as its sequence of runes (Unicode code points). -/
abbrev GoStr := List Char

/-- utf8.RuneCountInString: the number of runes in a string. -/
def runeCount (s : GoStr) : Nat := s.length

/-- strings.Repeat(" ", n): n space characters. -/
def spaces (n : Nat) : GoStr := List.replicate n ' '

/-- The escape character ESC (0x1b) that starts every ANSI control sequence. -/
def escChar : Char := '\x1b'

/-- Characters allowed in the parameter body of an SGR sequence: the regexp
character class `[0-9;]` of `ansiPattern`. -/
def isAnsiParam (c : Char) : Bool := ('0' ≤ c && c ≤ '9') || c = ';'

/-- sgr(n): the Select Graphic Rendition control sequence `"\x1b[" + n + "m"`. -/
def sgr (n : Int) : GoStr := escChar :: '[' :: (toString n).data ++ ['m']

/-- StyleReset: sgr(0), clearing all ANSI attributes. -/
def StyleReset : GoStr := sgr 0

/-- StyleColor256(n): 256-color ANSI foreground escape `"\x1b[38;5;" + n + "m"`. -/
def StyleColor256 (n : Int) : GoStr :=
  escChar :: '[' :: (("38;5;").data ++ (toString n).data) ++ ['m']

/-- If s begins with a match of `ansiPattern` (`\x1b\[[0-9;]*m`), return the
remainder of s after that match; otherwise `none`.  The match is forced: after
`ESC [` the run of `[0-9;]` characters is maximal and must be followed by `m`. -/
def tokenTail (s : GoStr) : Option GoStr :=
  match s with
  | c1 :: c2 :: rest =>
    if c1 = escChar ∧ c2 = '[' ∧ (rest.dropWhile isAnsiParam).head? = some 'm' then
      some (rest.dropWhile isAnsiParam).tail
    else none
  | _ => none

/-- Fuel-driven scanner realizing `ansiPattern.ReplaceAllString(s, "")`: a single
left-to-right pass deleting each non-overlapping match of `\x1b\[[0-9;]*m`.
Fuel at least `s.length` makes the result independent of the fuel. -/
def stripGo : Nat → GoStr → GoStr
  | _, [] => []
  | 0, s => s
  | fuel + 1, c :: cs =>
    match tokenTail (c :: cs) with
    | some tail => stripGo fuel tail
    | none => c :: stripGo fuel cs

/-- StripANSI: removes every match of `ansiPattern` from s in one pass. -/
def stripANSI (s : GoStr) : GoStr := stripGo s.length s

/-- s is exactly one recognized SGR control sequence (one match of `ansiPattern`). -/
def IsAnsiToken (s : GoStr) : Prop := tokenTail s = some []

instance (s : GoStr) : Decidable (IsAnsiToken s) := by
  unfold IsAnsiToken; infer_instance

/-- s contains no escape character, hence no part of any ANSI control sequence. -/
def EscFree (s : GoStr) : Prop := escChar ∉ s

instance (s : GoStr) : Decidable (EscFree s) := by
  unfold EscFree; infer_instance

/-- colorize: wraps text with a style and a trailing reset; a no-op when color
output is disabled or style/text is empty. -/
def colorize (color text : GoStr) (disabled : Bool) : GoStr :=
  if disabled = true ∨ color = [] ∨ text = [] then text
  else color ++ text ++ StyleReset

/-- Clip truncates s to `width` runes: empty for non-positive width, s itself
when it fits, otherwise the first `width` runes. -/
def Clip (width : Int) (s : GoStr) : GoStr :=
  if width ≤ 0 then []
  else if (runeCount s : Int) ≤ width then s
  else s.take width.toNat

/-- PadRight right-pads s with spaces up to `width` runes, clipping first. -/
def PadRight (width : Int) (s : GoStr) : GoStr :=
  let s' := Clip width s
  s' ++ spaces (max (width - (runeCount s' : Int)) 0).toNat

/-- PadLeft left-pads s with spaces up to `width` runes, clipping first. -/
def PadLeft (width : Int) (s : GoStr) : GoStr :=
  let s' := Clip width s
  spaces (max (width - (runeCount s' : Int)) 0).toNat ++ s'

/-- TUIConfig: layout parameters for the menu/TUI helpers.  The two menu marker
fields are the source's selected/unselected prefix strings. -/
structure TUIConfig where
  MenuSelectedMark : GoStr
  MenuUnselectedMark : GoStr
  MenuIndexWidth : Int
  InputCursor : GoStr
  DividerWidth : Int
  MaxWidth : Int
  Centered : Bool
deriving DecidableEq

/-- DefaultTUIConfig: defaults used by the tui helpers. -/
def DefaultTUIConfig : TUIConfig where
  MenuSelectedMark := ['>']
  MenuUnselectedMark := [' ']
  MenuIndexWidth := 2
  InputCursor := ['_']
  DividerWidth := 64
  MaxWidth := 0
  Centered := false

/-- normalizeTUIConfig fills unset layout parameters with defaults. -/
def normalizeTUIConfig (cfg : TUIConfig) : TUIConfig :=
  { cfg with
    MenuSelectedMark :=
      if cfg.MenuSelectedMark = [] then DefaultTUIConfig.MenuSelectedMark
      else cfg.MenuSelectedMark
    MenuUnselectedMark :=
      if cfg.MenuUnselectedMark = [] then DefaultTUIConfig.MenuUnselectedMark
      else cfg.MenuUnselectedMark
    MenuIndexWidth :=
      if cfg.MenuIndexWidth ≤ 0 then DefaultTUIConfig.MenuIndexWidth
      else cfg.MenuIndexWidth
    InputCursor :=
      if cfg.InputCursor = [] then DefaultTUIConfig.InputCursor
      else cfg.InputCursor
    DividerWidth :=
      if cfg.DividerWidth ≤ 0 then DefaultTUIConfig.DividerWidth
      else cfg.DividerWidth }

/-- Modelled from the spec: the role→Style palette consumed by the component
renderers (the repository's ConsoleColors record with its menu/title/prompt/
data/divider role fields is not under src/; §6 of the spec lists the roles). -/
structure ConsoleColors where
  Menu : GoStr := []
  Title : GoStr := []
  Prompt : GoStr := []
  Data : GoStr := []
  Divider : GoStr := []
deriving DecidableEq

/-- Modelled from the spec: role lookup returns the configured Style for the
menu role, the empty style when unset. -/
def ConsoleColors.menu (c : ConsoleColors) : GoStr := c.Menu

/-- Modelled from the spec: role lookup for the title role. -/
def ConsoleColors.title (c : ConsoleColors) : GoStr := c.Title

/-- Modelled from the spec: role lookup for the prompt role. -/
def ConsoleColors.prompt (c : ConsoleColors) : GoStr := c.Prompt

/-- Modelled from the spec: role lookup for the data role. -/
def ConsoleColors.data (c : ConsoleColors) : GoStr := c.Data

/-- Modelled from the spec: role lookup for the divider role. -/
def ConsoleColors.divider (c : ConsoleColors) : GoStr := c.Divider

/-- Modelled from the spec: the read-only configuration snapshot consumed per
render call — a color-disabled flag, the role palette, and the TUI layout
parameters (the repository's Config record is not under src/). -/
structure Config where
  NoColor : Bool := false
  Colors : ConsoleColors := {}
  TUI : TUIConfig := DefaultTUIConfig
deriving DecidableEq

/-- effectiveWidth resolves the layout width: the per-call width if positive,
else the configured maximum width if positive, else 0 (unconstrained). -/
def effectiveWidth (paramWidth : Int) (cfg : Config) : Int :=
  if paramWidth > 0 then paramWidth
  else if cfg.TUI.MaxWidth > 0 then cfg.TUI.MaxWidth
  else 0

/-- writeComposite: the centering choke-point.  line is already colorized;
plainWidth is its visible rune count.  Fprintln appends one newline. -/
def writeComposite (cfg : Config) (line : GoStr) (plainWidth : Int) : GoStr :=
  (if cfg.TUI.Centered = true ∧ cfg.TUI.MaxWidth > 0 then
    let pad := max (cfg.TUI.MaxWidth - plainWidth) 0
    let left := pad / 2
    let right := pad - left
    spaces left.toNat ++ line ++ spaces right.toNat
  else line) ++ ['\n']

/-- The plain content writeComponent sends on: clipped when width is positive. -/
def componentPlain (plainContent : GoStr) (width : Int) : GoStr :=
  if width > 0 then Clip width plainContent else plainContent

/-- writeComponent: clips, colorizes, then writes via writeComposite using the
clipped plain content's rune count as the visible width. -/
def writeComponent (cfg : Config) (color plainContent : GoStr) (width : Int) : GoStr :=
  writeComposite cfg
    (colorize color (componentPlain plainContent width) cfg.NoColor)
    (runeCount (componentPlain plainContent width) : Int)

/-- MenuEntry: a single item in a Menu component. -/
structure MenuEntry where
  Label : GoStr
  Selected : Bool
deriving DecidableEq

/-- MenuParams configures TUI.Menu. -/
structure MenuParams where
  Items : List MenuEntry
  Width : Int := 0
deriving DecidableEq

/-- SelectorParams configures TUI.Selector. -/
structure SelectorParams where
  Label : GoStr
  Items : List GoStr
  Current : Int
  Width : Int := 0
deriving DecidableEq

/-- InputParams configures TUI.Input. -/
structure InputParams where
  Label : GoStr
  Value : GoStr
  Active : Bool
  Width : Int := 0
deriving DecidableEq

/-- DividerParams configures TUI.Divider.  Rune 0 means the default fill. -/
structure DividerParams where
  Rune : Char := Char.ofNat 0
  Width : Int := 0
deriving DecidableEq

/-- fmt's `%*d` verb: the decimal form of n, space-padded to the given width
(right-justified for a positive width, left-justified for a negative one). -/
def fmtPadInt (w : Int) (n : Int) : GoStr :=
  let ds := (toString n).data
  if 0 ≤ w then spaces (max (w - (ds.length : Int)) 0).toNat ++ ds
  else ds ++ spaces (max (-w - (ds.length : Int)) 0).toNat

/-- The plain text Menu builds for entry e at 0-based position i:
`"{prefix} {index:padded}) {label}"` with a 1-based index. -/
def menuRowPlain (cfg : Config) (i : Nat) (e : MenuEntry) : GoStr :=
  (if e.Selected then cfg.TUI.MenuSelectedMark else cfg.TUI.MenuUnselectedMark)
    ++ [' '] ++ fmtPadInt cfg.TUI.MenuIndexWidth ((i : Int) + 1) ++ [')', ' '] ++ e.Label

/-- The color Menu picks for an entry: title color if selected, else menu color. -/
def menuRowColor (cfg : Config) (e : MenuEntry) : GoStr :=
  if e.Selected then cfg.Colors.title else cfg.Colors.menu

/-- The plain strings Menu pre-computes for all entries of a request. -/
def menuPlains (cfg : Config) (items : List MenuEntry) : List GoStr :=
  items.enum.map (fun ie => menuRowPlain cfg ie.1 ie.2)

/-- Menu's blockWidth: the widest plain rune count across all entries. -/
def menuBlockWidth (cfg : Config) (items : List MenuEntry) : Nat :=
  (menuPlains cfg items).foldl
    (fun bw pl => if bw < runeCount pl then runeCount pl else bw) 0

/-- The configuration snapshot Menu renders with: TUI parameters normalized. -/
def menuCfg (cfg0 : Config) : Config := { cfg0 with TUI := normalizeTUIConfig cfg0.TUI }

/-- Every entry's plain text right-padded to the common block width, in order. -/
def menuPaddedPlains (cfg0 : Config) (p : MenuParams) : List GoStr :=
  (menuPlains (menuCfg cfg0) p.Items).map
    (fun pl => PadRight ((menuBlockWidth (menuCfg cfg0) p.Items : Nat) : Int) pl)

/-- The visible width each Menu row hands to the compositor for centering:
the rune count of the (possibly clipped) padded plain content. -/
def menuVisibleWidths (cfg0 : Config) (p : MenuParams) : List Nat :=
  (menuPaddedPlains cfg0 p).map
    (fun pl => runeCount (componentPlain pl (effectiveWidth p.Width (menuCfg cfg0))))

/-- TUI.Menu: the list of output lines written, one per entry. -/
def TUIMenu (cfg0 : Config) (p : MenuParams) : List GoStr :=
  let cfg := menuCfg cfg0
  let width := effectiveWidth p.Width cfg
  let bw : Int := (menuBlockWidth cfg p.Items : Nat)
  p.Items.enum.map (fun ie =>
    writeComponent cfg (menuRowColor cfg ie.2) (PadRight bw (menuRowPlain cfg ie.1 ie.2)) width)

/-- Selector's current value: the option at the given index, or empty when the
index is out of the valid range. -/
def selectorCurrent (p : SelectorParams) : GoStr :=
  if 0 ≤ p.Current ∧ p.Current < (p.Items.length : Int) then
    p.Items.getD p.Current.toNat []
  else []

/-- The label and current strings Selector actually renders: when a width is
constrained, the label is clipped to the budget left by current plus the six
decoration characters, then current is clipped to what remains. -/
def selectorParts (cfg : Config) (p : SelectorParams) : GoStr × GoStr :=
  let current := selectorCurrent p
  let width := effectiveWidth p.Width cfg
  if width > 0 then
    let label := Clip (max (width - (runeCount current : Int) - 6) 0) p.Label
    let remaining := max (width - (runeCount label : Int) - 4) 0
    (label, Clip (remaining - 2) current)
  else (p.Label, current)

/-- TUI.Selector: the output line written for a selector render request,
`"{label}: < {current} >"` colorized and centered. -/
def selectorOut (cfg : Config) (p : SelectorParams) : GoStr :=
  let lc := selectorParts cfg p
  writeComposite cfg
    (colorize cfg.Colors.prompt lc.1 cfg.NoColor ++ ((": < ").data)
      ++ colorize cfg.Colors.data lc.2 cfg.NoColor ++ ((" >").data))
    ((runeCount lc.1 : Int) + (runeCount lc.2 : Int) + 6)

/-- The rune count Input reserves for the cursor glyph: the glyph's count when
active, zero otherwise.  cfg is the normalized snapshot. -/
def inputCursorRunes (cfg : Config) (p : InputParams) : Int :=
  if p.Active then (runeCount cfg.TUI.InputCursor : Int) else 0

/-- The value Input actually renders: clipped to the width remaining after the
label, the ": " separator and the cursor glyph when a width is constrained. -/
def inputValue (cfg : Config) (p : InputParams) : GoStr :=
  let width := effectiveWidth p.Width cfg
  if width > 0 then
    Clip (max (width - ((runeCount p.Label : Int) + 2) - inputCursorRunes cfg p) 0) p.Value
  else p.Value

/-- The visible width Input hands to the compositor. -/
def inputPlainWidth (cfg : Config) (p : InputParams) : Int :=
  (runeCount p.Label : Int) + 2 + (runeCount (inputValue cfg p) : Int)
    + (if p.Active then (runeCount cfg.TUI.InputCursor : Int) else 0)

/-- The colorized line Input builds: `"{label}: {value}{cursor}"`, the cursor
glyph appended only when active. -/
def inputLine (cfg : Config) (p : InputParams) : GoStr :=
  colorize cfg.Colors.prompt p.Label cfg.NoColor ++ ((": ").data)
    ++ colorize cfg.Colors.data (inputValue cfg p) cfg.NoColor
    ++ (if p.Active then colorize cfg.Colors.prompt cfg.TUI.InputCursor cfg.NoColor else [])

/-- TUI.Input: the output line written for an input render request. -/
def TUIInput (cfg0 : Config) (p : InputParams) : GoStr :=
  let cfg := menuCfg cfg0
  writeComposite cfg (inputLine cfg p) (inputPlainWidth cfg p)

/-- Divider's fill rune: `-` when the parameter is the zero rune. -/
def dividerFill (p : DividerParams) : Char :=
  if p.Rune = Char.ofNat 0 then '-' else p.Rune

/-- Divider's width: the per-call width if positive, else the effective-width
resolver, else the configured default divider width.  cfg is normalized. -/
def dividerWidth (cfg : Config) (p : DividerParams) : Int :=
  let w1 := if p.Width ≤ 0 then effectiveWidth 0 cfg else p.Width
  if w1 ≤ 0 then cfg.TUI.DividerWidth else w1

/-- The plain content of a divider: the fill rune repeated width times. -/
def dividerPlain (cfg : Config) (p : DividerParams) : GoStr :=
  List.replicate (dividerWidth cfg p).toNat (dividerFill p)

/-- TUI.Divider: the output line written for a divider render request. -/
def TUIDivider (cfg0 : Config) (p : DividerParams) : GoStr :=
  let cfg := menuCfg cfg0
  writeComponent cfg cfg.Colors.divider (dividerPlain cfg p) 0

/-! ### Lemmas about the control-sequence scanner -/

theorem length_dropWhile_le (p : Char → Bool) (l : GoStr) :
    (l.dropWhile p).length ≤ l.length := by
  induction l with
  | nil => simp
  | cons c cs ih =>
    by_cases h : p c
    · simpa [List.dropWhile, h] using Nat.le_succ_of_le ih
    · simp [List.dropWhile, h]

theorem dropWhile_append_cons (p : Char → Bool) (l r : GoStr) (x : Char) (t : GoStr)
    (h : l.dropWhile p = x :: t) :
    (l ++ r).dropWhile p = x :: (t ++ r) := by
  rw [List.dropWhile_append, h]
  simp

theorem tokenTail_some (s t : GoStr) (h : tokenTail s = some t) :
    ∃ rest, s = escChar :: '[' :: rest ∧ rest.dropWhile isAnsiParam = 'm' :: t := by
  match s with
  | [] => simp [tokenTail] at h
  | [c] => simp [tokenTail] at h
  | c1 :: c2 :: rest =>
    refine ⟨rest, ?_⟩
    simp only [tokenTail] at h
    split at h
    · rename_i hc
      obtain ⟨h1, h2, h3⟩ := hc
      subst h1; subst h2
      simp only [Option.some.injEq] at h
      cases hd : rest.dropWhile isAnsiParam with
      | nil => rw [hd] at h3; simp at h3
      | cons m tail =>
        rw [hd] at h3 h
        simp only [List.head?_cons, Option.some.injEq] at h3
        simp only [List.tail_cons] at h
        subst h3; subst h
        exact ⟨rfl, rfl⟩
    · exact absurd h (by simp)

theorem tokenTail_length (s t : GoStr) (h : tokenTail s = some t) :
    t.length + 3 ≤ s.length := by
  obtain ⟨rest, hs, hd⟩ := tokenTail_some s t h
  have h1 : ('m' :: t).length ≤ rest.length := by
    rw [← hd]; exact length_dropWhile_le _ _
  subst hs
  simp only [List.length_cons] at h1 ⊢
  omega

theorem tokenTail_nil : tokenTail [] = none := rfl

theorem tokenTail_none_of_head (c : Char) (cs : GoStr) (h : c ≠ escChar) :
    tokenTail (c :: cs) = none := by
  cases cs with
  | nil => rfl
  | cons d cs => simp [tokenTail, h]

theorem stripGo_congr (f : Nat) :
    ∀ (g : Nat) (s : GoStr), s.length ≤ f → s.length ≤ g → stripGo f s = stripGo g s := by
  induction f with
  | zero =>
    intro g s hf _
    have : s = [] := List.length_eq_zero.mp (Nat.le_zero.mp hf)
    subst this
    cases g <;> rfl
  | succ f ih =>
    intro g s hf hg
    cases s with
    | nil => cases g <;> rfl
    | cons c cs =>
      cases g with
      | zero => simp at hg
      | succ g =>
        simp only [stripGo]
        cases ht : tokenTail (c :: cs) with
        | some tail =>
          have hl := tokenTail_length _ _ ht
          simp only [List.length_cons] at hf hg hl
          exact ih g tail (by omega) (by omega)
        | none =>
          simp only [List.length_cons] at hf hg
          rw [ih g cs (by omega) (by omega)]

theorem stripANSI_nil : stripANSI [] = [] := rfl

theorem stripANSI_token (s t : GoStr) (h : tokenTail s = some t) :
    stripANSI s = stripANSI t := by
  obtain ⟨rest, hs, _⟩ := tokenTail_some s t h
  have hlen := tokenTail_length s t h
  subst hs
  show stripGo (rest.length + 2) _ = _
  simp only [stripANSI]
  rw [show rest.length + 2 = (rest.length + 1) + 1 from rfl]
  simp only [stripGo, h]
  exact stripGo_congr _ _ _ (by simp at hlen ⊢; omega) (le_refl _)

theorem stripANSI_plain (c : Char) (cs : GoStr) (h : tokenTail (c :: cs) = none) :
    stripANSI (c :: cs) = c :: stripANSI cs := by
  show stripGo (cs.length + 1) _ = _
  simp only [stripGo, h, stripANSI]

theorem isAnsiParam_escChar : isAnsiParam escChar = false := by decide

theorem isAnsiParam_m : isAnsiParam 'm' = false := by decide

/-- A match at the head survives appending on the right: the parameter run of a
match is terminated inside the matched part, so a suffix cannot extend it. -/
theorem tokenTail_append (s t u : GoStr) (h : tokenTail s = some t) :
    tokenTail (s ++ u) = some (t ++ u) := by
  obtain ⟨rest, hs, hd⟩ := tokenTail_some s t h
  subst hs
  have hdu : (rest ++ u).dropWhile isAnsiParam = 'm' :: (t ++ u) :=
    dropWhile_append_cons _ _ _ _ _ hd
  simp [tokenTail, hdu]

/-- An ANSI token prepended to any string is matched and consumed whole. -/
theorem tokenTail_token_append (tok s : GoStr) (htok : IsAnsiToken tok) :
    tokenTail (tok ++ s) = some s := by
  have := tokenTail_append tok [] s htok
  simpa using this

theorem stripANSI_token_append (tok s : GoStr) (htok : IsAnsiToken tok) :
    stripANSI (tok ++ s) = stripANSI s :=
  stripANSI_token _ _ (tokenTail_token_append tok s htok)

/-- Escape-free text passes through the scanner untouched, and matches after it
are unaffected: no match can begin inside escape-free text. -/
theorem stripANSI_escFree_append (a : GoStr) (ha : EscFree a) (s : GoStr) :
    stripANSI (a ++ s) = a ++ stripANSI s := by
  induction a with
  | nil => simp
  | cons c a ih =>
    have hc : c ≠ escChar := by
      intro hc
      exact ha (hc ▸ List.mem_cons_self c a)
    have ha' : EscFree a := fun hmem => ha (List.mem_cons_of_mem c hmem)
    rw [List.cons_append, stripANSI_plain _ _ (tokenTail_none_of_head _ _ hc), ih ha']
    rfl

theorem stripANSI_of_escFree (s : GoStr) (hs : EscFree s) : stripANSI s = s := by
  have := stripANSI_escFree_append s hs []
  simpa [stripANSI_nil] using this

/-- A head position that does not start a match still does not after a token is
appended: the token's leading escape character can neither continue a parameter
run nor supply the final `m` of an earlier candidate match. -/
theorem tokenTail_none_append (c : Char) (cs tok : GoStr)
    (h : tokenTail (c :: cs) = none) (htok : IsAnsiToken tok) :
    tokenTail ((c :: cs) ++ tok) = none := by
  obtain ⟨ps, htokeq, hdps⟩ := tokenTail_some tok [] htok
  by_cases hc : c = escChar
  · subst hc
    cases cs with
    | nil =>
      simp only [List.cons_append, List.nil_append]
      rw [htokeq]
      simp [tokenTail, escChar]
    | cons c2 rest =>
      by_cases hc2 : c2 = '['
      · subst hc2
        simp only [List.cons_append, tokenTail, and_true, true_and] at h ⊢
        cases hdr : rest.dropWhile isAnsiParam with
        | nil =>
          have hall : ∀ x ∈ rest, isAnsiParam x = true := by
            intro x hx
            by_contra hx'
            have := List.dropWhile_eq_nil_iff.mp hdr
            simp at this
            exact hx' (this x hx)
          have : (rest ++ tok).dropWhile isAnsiParam = tok.dropWhile isAnsiParam := by
            rw [List.dropWhile_append, hdr]
            simp
          rw [this, htokeq]
          rw [List.dropWhile_cons_of_neg (by simp [isAnsiParam_escChar])]
          simp [escChar]
        | cons x xt =>
          have hx : (rest ++ tok).dropWhile isAnsiParam = x :: (xt ++ tok) :=
            dropWhile_append_cons _ _ _ _ _ hdr
          rw [hdr] at h
          rw [hx]
          simp only [List.head?_cons] at h ⊢
          by_cases hxm : x = 'm'
          · rw [if_pos (by rw [hxm])] at h
            exact absurd h (by simp)
          · rw [if_neg (by simpa using hxm)]
      · simp only [List.cons_append, tokenTail] at h ⊢
        simp [hc2]
  · cases cs with
    | nil =>
      rw [htokeq]
      exact tokenTail_none_of_head _ _ hc
    | cons c2 rest =>
      simp only [List.cons_append, tokenTail] at h ⊢
      simp [hc]

/-- Appending a complete ANSI token to any string only adds one more match:
stripping removes it and nothing else changes. -/
theorem stripANSI_append_token_aux (tok : GoStr) (htok : IsAnsiToken tok) (n : Nat) :
    ∀ s : GoStr, s.length ≤ n → stripANSI (s ++ tok) = stripANSI s := by
  induction n with
  | zero =>
    intro s hs
    have : s = [] := List.length_eq_zero.mp (Nat.le_zero.mp hs)
    subst this
    simp only [List.nil_append, stripANSI_nil]
    simpa [stripANSI_nil] using stripANSI_token_append tok [] htok
  | succ n ih =>
    intro s hs
    cases s with
    | nil =>
      simp only [List.nil_append, stripANSI_nil]
      simpa [stripANSI_nil] using stripANSI_token_append tok [] htok
    | cons c cs =>
      cases ht : tokenTail (c :: cs) with
      | some t =>
        have h1 : tokenTail ((c :: cs) ++ tok) = some (t ++ tok) :=
          tokenTail_append _ _ _ ht
        rw [stripANSI_token _ _ h1, stripANSI_token _ _ ht]
        have hlen := tokenTail_length _ _ ht
        simp only [List.length_cons] at hs hlen
        exact ih t (by omega)
      | none =>
        have h1 : tokenTail (c :: (cs ++ tok)) = none := by
          have := tokenTail_none_append c cs tok ht htok
          simpa using this
        simp only [List.length_cons] at hs
        calc stripANSI ((c :: cs) ++ tok) = stripANSI (c :: (cs ++ tok)) := by
              rw [List.cons_append]
          _ = c :: stripANSI (cs ++ tok) := stripANSI_plain _ _ h1
          _ = c :: stripANSI cs := by rw [ih cs (by omega)]
          _ = stripANSI (c :: cs) := (stripANSI_plain _ _ ht).symm

theorem stripANSI_append_token (tok s : GoStr) (htok : IsAnsiToken tok) :
    stripANSI (s ++ tok) = stripANSI s :=
  stripANSI_append_token_aux tok htok s.length s (le_refl _)

/-- Stripping a colorized span recovers the plain text, whatever follows it:
the style is empty or one token, the text is escape-free, and the trailing
reset is one token. -/
theorem stripANSI_colorize_append (color text : GoStr) (d : Bool)
    (hc : color = [] ∨ IsAnsiToken color) (ht : EscFree text) (rest : GoStr) :
    stripANSI (colorize color text d ++ rest) = text ++ stripANSI rest := by
  have hReset : IsAnsiToken StyleReset := by decide
  unfold colorize
  split
  · exact stripANSI_escFree_append text ht rest
  · rename_i hcond
    push_neg at hcond
    obtain ⟨_, hcne, _⟩ := hcond
    have hctok : IsAnsiToken color := hc.resolve_left hcne
    rw [List.append_assoc, List.append_assoc,
      stripANSI_token_append color _ hctok,
      stripANSI_escFree_append text ht, stripANSI_token_append _ _ hReset]

theorem stripANSI_colorize (color text : GoStr) (d : Bool)
    (hc : color = [] ∨ IsAnsiToken color) (ht : EscFree text) :
    stripANSI (colorize color text d) = text := by
  have := stripANSI_colorize_append color text d hc ht []
  simpa [stripANSI_nil] using this

/-! ### Width lemmas -/

theorem Clip_length_le_toNat (w : Int) (s : GoStr) : (Clip w s).length ≤ w.toNat := by
  unfold Clip
  split
  · simp
  · split
    · rename_i h1 h2
      simp only [runeCount] at h2
      omega
    · simp only [List.length_take]
      omega

theorem PadRight_length (w : Int) (s : GoStr) (hw : 0 ≤ w) :
    (PadRight w s).length = w.toNat := by
  have hc := Clip_length_le_toNat w s
  unfold PadRight spaces
  simp only [runeCount, List.length_append, List.length_replicate]
  omega

/-! ### Claim theorems -/

/-- C2: for positive width the clipped rune count is `min width (runeCount s)`,
with s returned unchanged when it fits and truncated to its first `width` runes
otherwise; for non-positive width Clip returns the empty string. -/
theorem clip_spec (width : Int) (s : GoStr) :
    (0 < width →
      ((runeCount (Clip width s) : Int) = min width (runeCount s : Int)
        ∧ ((runeCount s : Int) ≤ width → Clip width s = s)
        ∧ (width < (runeCount s : Int) → Clip width s = s.take width.toNat)))
    ∧ (width ≤ 0 → Clip width s = []) := by
  constructor
  · intro hw
    refine ⟨?_, ?_, ?_⟩
    · unfold Clip
      rw [if_neg (by omega)]
      split
      · rename_i h
        simp only [runeCount] at h ⊢
        omega
      · rename_i h
        simp only [runeCount, List.length_take] at h ⊢
        push_cast
        omega
    · intro hfit
      unfold Clip
      rw [if_neg (by omega), if_pos hfit]
    · intro hbig
      unfold Clip
      rw [if_neg (by omega), if_neg (by omega)]
  · intro hw
    unfold Clip
    rw [if_pos hw]

/-- C2 witness: the clip contract evaluated at width 2 and the string "abc". -/
theorem clip_spec_witness :
    (runeCount (Clip 2 (('a' :: 'b' :: 'c' :: []))) : Int)
        = min 2 (runeCount (('a' :: 'b' :: 'c' :: [])) : Int)
      ∧ Clip 2 (('a' :: 'b' :: 'c' :: [])) = ('a' :: 'b' :: 'c' :: []).take ((2 : Int)).toNat
      ∧ Clip (-1) (('a' :: 'b' :: 'c' :: [])) = [] := by
  have h1 := (clip_spec 2 (('a' :: 'b' :: 'c' :: []))).1 (by decide)
  have h2 := (clip_spec (-1) (('a' :: 'b' :: 'c' :: []))).2 (by decide)
  exact ⟨h1.1, h1.2.2 (by decide), h2⟩

/-- C9: colorize returns the text unchanged when disabled or either part is
empty, and otherwise wraps it as style + text + RESET. -/
theorem colorize_spec (style text : GoStr) (colorDisabled : Bool) :
    ((colorDisabled = true ∨ style = [] ∨ text = []) →
      colorize style text colorDisabled = text)
    ∧ (colorDisabled = false → style ≠ [] → text ≠ [] →
      colorize style text colorDisabled = style ++ text ++ StyleReset) := by
  constructor
  · intro h
    unfold colorize
    rw [if_pos h]
  · intro h1 h2 h3
    unfold colorize
    rw [if_neg (by simp [h1, h2, h3])]

/-- C9 witness: colorize evaluated on both branches at concrete inputs. -/
theorem colorize_spec_witness :
    colorize (sgr 1) (('h' :: 'i' :: [])) true = ('h' :: 'i' :: [])
      ∧ colorize (sgr 1) (('h' :: 'i' :: [])) false
          = sgr 1 ++ ('h' :: 'i' :: []) ++ StyleReset :=
  ⟨(colorize_spec (sgr 1) (('h' :: 'i' :: [])) true).1 (Or.inl rfl),
    (colorize_spec (sgr 1) (('h' :: 'i' :: [])) false).2 rfl (by decide) (by decide)⟩

/-- C1: writeComposite centers the line between floor(pad/2) left spaces and
the remaining right spaces, pad = max(maxWidth - visibleWidth, 0), exactly when
the centered flag is set and the maximum width is positive; otherwise it emits
the line unchanged; either way the output is the line plus one newline. -/
theorem writeComposite_spec (cfg : Config) (line : GoStr) (visibleWidth : Int) :
    (cfg.TUI.Centered = true ∧ 0 < cfg.TUI.MaxWidth →
      writeComposite cfg line visibleWidth =
        spaces ((max (cfg.TUI.MaxWidth - visibleWidth) 0 / 2).toNat) ++ line
          ++ spaces ((max (cfg.TUI.MaxWidth - visibleWidth) 0
              - max (cfg.TUI.MaxWidth - visibleWidth) 0 / 2).toNat) ++ ['\n'])
    ∧ ((cfg.TUI.Centered = false ∨ cfg.TUI.MaxWidth ≤ 0) →
      writeComposite cfg line visibleWidth = line ++ ['\n'])
    ∧ ∃ body, writeComposite cfg line visibleWidth = body ++ ['\n'] := by
  refine ⟨?_, ?_, ?_⟩
  · intro h
    unfold writeComposite
    rw [if_pos ⟨h.1, h.2⟩]
  · intro h
    unfold writeComposite
    have hneg : ¬ (cfg.TUI.Centered = true ∧ 0 < cfg.TUI.MaxWidth) := by
      intro hc
      obtain ⟨hc1, hc2⟩ := hc
      rcases h with h | h
      · rw [h] at hc1
        exact Bool.false_ne_true hc1
      · omega
    rw [if_neg hneg]
  · unfold writeComposite
    exact ⟨_, rfl⟩

/-- A concrete centered configuration for exercising the compositor contract. -/
def cfgCentered10 : Config :=
  { NoColor := true, Colors := {},
    TUI := { DefaultTUIConfig with MaxWidth := 10, Centered := true } }

/-- A concrete non-centered configuration. -/
def cfgPlain : Config := { NoColor := true, Colors := {}, TUI := DefaultTUIConfig }

/-- C1 witness: the compositor contract evaluated on both branches. -/
theorem writeComposite_spec_witness :
    (cfgCentered10.TUI.Centered = true ∧ 0 < cfgCentered10.TUI.MaxWidth
      ∧ writeComposite cfgCentered10 (('H' :: 'i' :: [])) 2 =
          spaces ((max (cfgCentered10.TUI.MaxWidth - 2) 0 / 2).toNat) ++ ('H' :: 'i' :: [])
            ++ spaces ((max (cfgCentered10.TUI.MaxWidth - 2) 0
                - max (cfgCentered10.TUI.MaxWidth - 2) 0 / 2).toNat) ++ ['\n'])
    ∧ writeComposite cfgPlain (('H' :: 'i' :: [])) 2 = ('H' :: 'i' :: []) ++ ['\n'] :=
  ⟨⟨rfl, by decide, (writeComposite_spec cfgCentered10 (('H' :: 'i' :: [])) 2).1
      ⟨rfl, by decide⟩⟩,
    (writeComposite_spec cfgPlain (('H' :: 'i' :: [])) 2).2.1 (Or.inl rfl)⟩

/-- C7: an out-of-range selector index yields an empty current value, and the
render still completes as one full line ending in a newline. -/
theorem selector_out_of_range (cfg : Config) (p : SelectorParams)
    (h : p.Current < 0 ∨ (p.Items.length : Int) ≤ p.Current) :
    selectorCurrent p = [] ∧ ∃ body, selectorOut cfg p = body ++ ['\n'] := by
  constructor
  · unfold selectorCurrent
    rw [if_neg (by omega)]
  · exact ⟨_, rfl⟩

/-- C7 witness: an index past the end of a one-item selector renders with an
empty current value. -/
theorem selector_out_of_range_witness :
    selectorCurrent { Label := ('o' :: 'p' :: 't' :: []), Items := [['x']], Current := 99 } = []
      ∧ ∃ body, selectorOut cfgPlain
          { Label := ('o' :: 'p' :: 't' :: []), Items := [['x']], Current := 99 }
          = body ++ ['\n'] :=
  selector_out_of_range cfgPlain
    { Label := ('o' :: 'p' :: 't' :: []), Items := [['x']], Current := 99 }
    (Or.inr (by decide))

/-- C4 counterexample: with the non-empty style sgr(1) and the non-empty text
"\x1b[2m", stripping the styled output does not recover the text — the
stripper also deletes the escape sequence inside the text. -/
theorem colorize_strip_cex :
    sgr 1 ≠ [] ∧ (escChar :: '[' :: '2' :: 'm' :: []) ≠ []
      ∧ stripANSI (colorize (sgr 1) (escChar :: '[' :: '2' :: 'm' :: []) false)
          ≠ (escChar :: '[' :: '2' :: 'm' :: []) := by
  refine ⟨by decide, by decide, ?_⟩
  decide

/-- C4 amended: for a style that is one recognized control sequence and a
non-empty text that stripping leaves unchanged, stripping the styled output
recovers the text exactly. -/
theorem colorize_strip_roundTrip (style text : GoStr)
    (hstyle : IsAnsiToken style) (htext : stripANSI text = text) (hne : text ≠ []) :
    stripANSI (colorize style text false) = text := by
  have hReset : IsAnsiToken StyleReset := by decide
  have hsne : style ≠ [] := by
    intro h
    rw [h] at hstyle
    exact absurd hstyle (by decide)
  unfold colorize
  rw [if_neg (by simp [hsne, hne])]
  rw [stripANSI_append_token _ _ hReset, stripANSI_token_append _ _ hstyle, htext]

/-- C4 witness: the round trip evaluated at style sgr(4) and text "ab". -/
theorem colorize_strip_roundTrip_witness :
    stripANSI (colorize (sgr 4) (('a' :: 'b' :: [])) false) = ('a' :: 'b' :: []) :=
  colorize_strip_roundTrip (sgr 4) (('a' :: 'b' :: []))
    (by decide) (by decide) (by decide)

/-- C5 counterexample: one stripping pass over "\x1b[\x1b[0m0m" deletes the
inner reset sequence and splices its neighbours into a brand-new escape
sequence "\x1b[0m", so a second pass strips again. -/
theorem stripANSI_idem_cex :
    stripANSI (stripANSI (escChar :: '[' :: escChar :: '[' :: '0' :: 'm' :: '0' :: 'm' :: []))
      ≠ stripANSI (escChar :: '[' :: escChar :: '[' :: '0' :: 'm' :: '0' :: 'm' :: []) := by
  decide

/-- C5 amended: stripStyle is idempotent on every string whose stripped form
contains no escape character (in particular on any mix of plain text and
well-formed control sequences); it is not idempotent in general. -/
theorem stripANSI_idem (s : GoStr) (h : EscFree (stripANSI s)) :
    stripANSI (stripANSI s) = stripANSI s :=
  stripANSI_of_escFree _ h

/-- C5 witness: idempotence evaluated on "\x1b[31mhi". -/
theorem stripANSI_idem_witness :
    stripANSI (stripANSI (escChar :: '[' :: '3' :: '1' :: 'm' :: 'h' :: 'i' :: []))
      = stripANSI (escChar :: '[' :: '3' :: '1' :: 'm' :: 'h' :: 'i' :: []) :=
  stripANSI_idem (escChar :: '[' :: '3' :: '1' :: 'm' :: 'h' :: 'i' :: []) (by decide)

/-- The configuration of the centered selector scenario: no color, centering
enabled, maximum width 30 (the palette plays no role in the stripped line). -/
def selScenCfg : Config :=
  { NoColor := true, Colors := {},
    TUI := { DefaultTUIConfig with MaxWidth := 30, Centered := true } }

/-- The selector render request of the scenario. -/
def selScenParams : SelectorParams :=
  { Label := ['x'], Items := [['y']], Current := 0, Width := 0 }

/-- C6 counterexample: the scenario's rendered content is the string
"x: < y >", which has 8 code points, not 9 as the claim states. -/
theorem selector_scenario_cex :
    stripANSI (selectorOut selScenCfg selScenParams)
        = spaces 11 ++ (("x: < y >").data) ++ spaces 11 ++ ['\n']
      ∧ runeCount ((("x: < y >").data)) ≠ 9 := by
  constructor
  · decide
  · decide

/-- C6 amended: the scenario produces a stripped line of exactly 30 code
points whose content "x: < y >" (8 code points) is centered between 11 leading
and 11 trailing spaces. -/
theorem selector_scenario :
    stripANSI (selectorOut selScenCfg selScenParams)
        = spaces 11 ++ (("x: < y >").data) ++ spaces 11 ++ ['\n']
      ∧ runeCount ((("x: < y >").data)) = 8
      ∧ runeCount (spaces 11 ++ (("x: < y >").data) ++ spaces 11) = 30 := by
  refine ⟨by decide, by decide, by decide⟩

/-- The configuration of the divider scenarios: default layout, divider color
set to a 256-color style token. -/
def divScenCfg : Config :=
  { NoColor := false, Colors := { Divider := StyleColor256 8 }, TUI := DefaultTUIConfig }

/-- C8: the divider's plain content is its fill rune repeated width times,
width resolving to the per-call width when positive, else the configured
maximum width when positive, else the configured default divider width; in
particular width 40 with the default fill gives 40 dashes, and width 10 with
fill '=' gives exactly ten equals signs. -/
theorem divider_spec (cfg : Config) (p : DividerParams) :
    ((0 < p.Width → dividerWidth cfg p = p.Width)
      ∧ (p.Width ≤ 0 → 0 < cfg.TUI.MaxWidth → dividerWidth cfg p = cfg.TUI.MaxWidth)
      ∧ (p.Width ≤ 0 → cfg.TUI.MaxWidth ≤ 0 → dividerWidth cfg p = cfg.TUI.DividerWidth)
      ∧ dividerPlain cfg p = List.replicate (dividerWidth cfg p).toNat (dividerFill p))
    ∧ stripANSI (TUIDivider divScenCfg { Rune := Char.ofNat 0, Width := 40 })
        = List.replicate 40 '-' ++ ['\n']
    ∧ stripANSI (TUIDivider divScenCfg { Rune := '=', Width := 10 })
        = (("==========").data) ++ ['\n'] := by
  refine ⟨⟨?_, ?_, ?_, rfl⟩, by decide, by decide⟩
  · intro h
    unfold dividerWidth effectiveWidth
    dsimp only
    split_ifs <;> omega
  · intro h1 h2
    unfold dividerWidth effectiveWidth
    dsimp only
    split_ifs <;> omega
  · intro h1 h2
    unfold dividerWidth effectiveWidth
    dsimp only
    split_ifs <;> omega

/-- C8 witness: the width priority chain evaluated at each of its three tiers. -/
theorem divider_spec_witness :
    dividerWidth cfgPlain { Rune := '=', Width := 10 } = 10
      ∧ dividerWidth cfgCentered10 { Rune := Char.ofNat 0, Width := 0 }
          = cfgCentered10.TUI.MaxWidth
      ∧ dividerWidth cfgPlain { Rune := Char.ofNat 0, Width := 0 }
          = cfgPlain.TUI.DividerWidth :=
  ⟨(divider_spec cfgPlain { Rune := '=', Width := 10 }).1.1 (by decide),
    (divider_spec cfgCentered10 { Rune := Char.ofNat 0, Width := 0 }).1.2.1
      (by decide) (by decide),
    (divider_spec cfgPlain { Rune := Char.ofNat 0, Width := 0 }).1.2.2.1
      (by decide) (by decide)⟩

theorem Clip_length_eq (w : Int) (s : GoStr) (hw : 0 < w) :
    (Clip w s).length = min w.toNat s.length := by
  unfold Clip
  rw [if_neg (by omega)]
  split
  · rename_i h
    simp only [runeCount] at h
    omega
  · rename_i h
    simp only [runeCount] at h
    simp only [List.length_take]

theorem componentPlain_length (s : GoStr) (w : Int) :
    (componentPlain s w).length = if 0 < w then min w.toNat s.length else s.length := by
  unfold componentPlain
  split
  · rename_i h
    exact Clip_length_eq w s h
  · rfl

/-- The accumulator function of Menu's blockWidth fold. -/
def bwStep (bw : Nat) (pl : GoStr) : Nat := if bw < runeCount pl then runeCount pl else bw

theorem menuBlockWidth_eq_foldl (cfg : Config) (items : List MenuEntry) :
    menuBlockWidth cfg items = (menuPlains cfg items).foldl bwStep 0 := rfl

theorem foldl_bwStep_le_self (l : List GoStr) :
    ∀ a : Nat, a ≤ l.foldl bwStep a := by
  induction l with
  | nil => intro a; simp
  | cons x xs ih =>
    intro a
    have h1 : a ≤ bwStep a x := by
      unfold bwStep
      split <;> omega
    exact le_trans h1 (ih (bwStep a x))

theorem foldl_bwStep_mem_le (l : List GoStr) (x : GoStr) (hx : x ∈ l) :
    ∀ a : Nat, runeCount x ≤ l.foldl bwStep a := by
  induction l with
  | nil => cases hx
  | cons y ys ih =>
    intro a
    rcases List.mem_cons.mp hx with h | h
    · subst h
      have h1 : runeCount x ≤ bwStep a x := by
        unfold bwStep
        split <;> omega
      exact le_trans h1 (foldl_bwStep_le_self ys (bwStep a x))
    · rw [List.foldl_cons]
      exact ih h (bwStep a y)

theorem foldl_bwStep_attained (l : List GoStr) :
    ∀ a : Nat, l.foldl bwStep a = a ∨ ∃ x ∈ l, l.foldl bwStep a = runeCount x := by
  induction l with
  | nil => intro a; exact Or.inl rfl
  | cons y ys ih =>
    intro a
    rcases ih (bwStep a y) with h | h
    · rw [List.foldl_cons, h]
      unfold bwStep
      split
      · exact Or.inr ⟨y, List.mem_cons_self y ys, rfl⟩
      · exact Or.inl rfl
    · obtain ⟨x, hx, he⟩ := h
      exact Or.inr ⟨x, List.mem_cons_of_mem y hx, he⟩

theorem menuBlockWidth_ub (cfg : Config) (items : List MenuEntry) (pl : GoStr)
    (h : pl ∈ menuPlains cfg items) :
    runeCount pl ≤ menuBlockWidth cfg items :=
  foldl_bwStep_mem_le _ pl h 0

theorem menuBlockWidth_attained (cfg : Config) (items : List MenuEntry)
    (h : items ≠ []) :
    ∃ pl ∈ menuPlains cfg items, runeCount pl = menuBlockWidth cfg items := by
  have hne : menuPlains cfg items ≠ [] := by
    unfold menuPlains
    intro hcon
    exact h (by simpa using congrArg List.length hcon)
  rcases foldl_bwStep_attained (menuPlains cfg items) 0 with h0 | h0
  · obtain ⟨pl, hpl⟩ := List.exists_mem_of_ne_nil _ hne
    refine ⟨pl, hpl, ?_⟩
    have hub := menuBlockWidth_ub cfg items pl hpl
    rw [menuBlockWidth_eq_foldl, h0] at hub ⊢
    omega
  · obtain ⟨pl, hpl, he⟩ := h0
    exact ⟨pl, hpl, (menuBlockWidth_eq_foldl cfg items ▸ he).symm⟩

theorem menuPlains_length (cfg : Config) (items : List MenuEntry) :
    (menuPlains cfg items).length = items.length := by
  unfold menuPlains
  rw [List.length_map, List.enum_length]

/-- C3: every Menu entry's plain text is right-padded to the common block
width — the maximum plain rune count across all entries, an attained upper
bound — so the padded plain widths, and the visible widths handed to the
compositor before centering, are identical across the request. -/
theorem menu_block_alignment (cfg0 : Config) (p : MenuParams) :
    ((menuPaddedPlains cfg0 p).map runeCount
        = List.replicate p.Items.length (menuBlockWidth (menuCfg cfg0) p.Items))
    ∧ (∀ pl ∈ menuPlains (menuCfg cfg0) p.Items,
        runeCount pl ≤ menuBlockWidth (menuCfg cfg0) p.Items)
    ∧ (p.Items ≠ [] → ∃ pl ∈ menuPlains (menuCfg cfg0) p.Items,
        runeCount pl = menuBlockWidth (menuCfg cfg0) p.Items)
    ∧ (∃ w, menuVisibleWidths cfg0 p = List.replicate p.Items.length w) := by
  have hpad : ∀ pl : GoStr,
      runeCount (PadRight ((menuBlockWidth (menuCfg cfg0) p.Items : Nat) : Int) pl)
        = menuBlockWidth (menuCfg cfg0) p.Items := by
    intro pl
    have := PadRight_length ((menuBlockWidth (menuCfg cfg0) p.Items : Nat) : Int) pl
      (by positivity)
    simpa [runeCount] using this
  have hlen : (menuPaddedPlains cfg0 p).length = p.Items.length := by
    unfold menuPaddedPlains
    rw [List.length_map, menuPlains_length]
  refine ⟨?_, ?_, ?_, ?_⟩
  · have h1 : ∀ b ∈ (menuPaddedPlains cfg0 p).map runeCount,
        b = menuBlockWidth (menuCfg cfg0) p.Items := by
      intro b hb
      obtain ⟨pl, hpl, hb⟩ := List.mem_map.mp hb
      obtain ⟨q, _, hq⟩ := List.mem_map.mp hpl
      rw [← hb, ← hq, hpad q]
    have h2 : ((menuPaddedPlains cfg0 p).map runeCount).length = p.Items.length := by
      rw [List.length_map, hlen]
    rw [← h2]
    exact List.eq_replicate_length.mpr h1
  · exact fun pl h => menuBlockWidth_ub _ _ pl h
  · exact menuBlockWidth_attained _ _
  · refine ⟨if 0 < effectiveWidth p.Width (menuCfg cfg0) then
      min (effectiveWidth p.Width (menuCfg cfg0)).toNat (menuBlockWidth (menuCfg cfg0) p.Items)
      else menuBlockWidth (menuCfg cfg0) p.Items, ?_⟩
    have h1 : ∀ b ∈ menuVisibleWidths cfg0 p,
        b = if 0 < effectiveWidth p.Width (menuCfg cfg0) then
          min (effectiveWidth p.Width (menuCfg cfg0)).toNat
            (menuBlockWidth (menuCfg cfg0) p.Items)
          else menuBlockWidth (menuCfg cfg0) p.Items := by
      intro b hb
      obtain ⟨pl, hpl, hb⟩ := List.mem_map.mp hb
      obtain ⟨q, _, hq⟩ := List.mem_map.mp hpl
      have hq' : runeCount pl = menuBlockWidth (menuCfg cfg0) p.Items := by
        rw [← hq]; exact hpad q
      rw [← hb]
      simp only [runeCount] at hq' ⊢
      rw [componentPlain_length, hq']
    have h2 : (menuVisibleWidths cfg0 p).length = p.Items.length := by
      unfold menuVisibleWidths
      rw [List.length_map, hlen]
    rw [← h2]
    exact List.eq_replicate_length.mpr h1

/-- The menu request used to exercise the block-alignment theorem: two entries
with labels of different lengths. -/
def menuScenParams : MenuParams :=
  { Items := [{ Label := ("alpha").data, Selected := true },
              { Label := ("hi").data, Selected := false }], Width := 0 }

/-- C3 witness: block alignment evaluated on a two-entry request with labels
of lengths 5 and 2. -/
theorem menu_block_alignment_witness :
    ((menuPaddedPlains cfgPlain menuScenParams).map runeCount
        = List.replicate menuScenParams.Items.length
            (menuBlockWidth (menuCfg cfgPlain) menuScenParams.Items))
      ∧ (∃ pl ∈ menuPlains (menuCfg cfgPlain) menuScenParams.Items,
          runeCount pl = menuBlockWidth (menuCfg cfgPlain) menuScenParams.Items)
      ∧ (∃ w, menuVisibleWidths cfgPlain menuScenParams
          = List.replicate menuScenParams.Items.length w) :=
  ⟨(menu_block_alignment cfgPlain menuScenParams).1,
    (menu_block_alignment cfgPlain menuScenParams).2.2.1 (by decide),
    (menu_block_alignment cfgPlain menuScenParams).2.2.2⟩

theorem colorize_nil (color : GoStr) (d : Bool) : colorize color [] d = [] := by
  unfold colorize
  rw [if_pos (Or.inr (Or.inr rfl))]

/-- The stripped form of the line Input builds, for token-or-empty role styles
and escape-free label, value and cursor texts: exactly the plain content. -/
theorem inputLine_strip (cfg : Config) (p : InputParams)
    (hp : cfg.Colors.prompt = [] ∨ IsAnsiToken cfg.Colors.prompt)
    (hd : cfg.Colors.data = [] ∨ IsAnsiToken cfg.Colors.data)
    (hl : EscFree p.Label) (hv : EscFree (inputValue cfg p))
    (hc : EscFree cfg.TUI.InputCursor) :
    stripANSI (inputLine cfg p)
      = p.Label ++ (':' :: ' ' :: []) ++ inputValue cfg p
          ++ (if p.Active then cfg.TUI.InputCursor else []) := by
  unfold inputLine
  have hsep : ((": ").data) = (':' :: ' ' :: []) := rfl
  rw [List.append_assoc, List.append_assoc]
  rw [stripANSI_colorize_append _ _ _ hp hl]
  rw [hsep, List.append_assoc]
  have h2 : stripANSI ((':' :: ' ' :: []) ++ (colorize cfg.Colors.data (inputValue cfg p)
        cfg.NoColor ++ (if p.Active then colorize cfg.Colors.prompt cfg.TUI.InputCursor
          cfg.NoColor else [])))
      = (':' :: ' ' :: []) ++ (inputValue cfg p
          ++ (if p.Active then cfg.TUI.InputCursor else [])) := by
    rw [stripANSI_escFree_append _ (by decide)]
    rw [stripANSI_colorize_append _ _ _ hd hv]
    cases hA : p.Active <;>
      simp [stripANSI_nil, stripANSI_colorize cfg.Colors.prompt cfg.TUI.InputCursor
        cfg.NoColor hp hc]
  rw [h2]
  simp [List.append_assoc]

/-- C10: with a positive resolved width, only the value is clipped; once the
label, the ": " separator and (when active) the cursor glyph already meet or
exceed the width, the value is clipped to empty and the stripped line's rune
count is the label count plus 2 plus the cursor count — at least the width
budget. -/
theorem input_overflow_spec (cfg : Config) (p : InputParams)
    (hp : cfg.Colors.prompt = [] ∨ IsAnsiToken cfg.Colors.prompt)
    (hd : cfg.Colors.data = [] ∨ IsAnsiToken cfg.Colors.data)
    (hl : EscFree p.Label) (hc : EscFree cfg.TUI.InputCursor)
    (hw : 0 < effectiveWidth p.Width cfg)
    (hover : effectiveWidth p.Width cfg
        ≤ (runeCount p.Label : Int) + 2 + inputCursorRunes cfg p) :
    inputValue cfg p = []
    ∧ stripANSI (inputLine cfg p)
        = p.Label ++ (':' :: ' ' :: []) ++ (if p.Active then cfg.TUI.InputCursor else [])
    ∧ (runeCount (stripANSI (inputLine cfg p)) : Int)
        = (runeCount p.Label : Int) + 2 + inputCursorRunes cfg p
    ∧ effectiveWidth p.Width cfg ≤ (runeCount (stripANSI (inputLine cfg p)) : Int) := by
  have hval : inputValue cfg p = [] := by
    unfold inputValue
    dsimp only
    rw [if_pos hw]
    have hmax : max (effectiveWidth p.Width cfg - ((runeCount p.Label : Int) + 2)
        - inputCursorRunes cfg p) 0 = 0 := by omega
    rw [hmax]
    unfold Clip
    rw [if_pos (by omega)]
  have hstrip := inputLine_strip cfg p hp hd hl (by rw [hval]; decide) hc
  rw [hval] at hstrip
  simp only [List.append_nil] at hstrip
  have hcount : (runeCount (stripANSI (inputLine cfg p)) : Int)
      = (runeCount p.Label : Int) + 2 + inputCursorRunes cfg p := by
    rw [hstrip]
    cases hA : p.Active <;> simp [runeCount, inputCursorRunes, hA] <;> push_cast <;> omega
  exact ⟨hval, hstrip, hcount, by omega⟩

/-- The configuration of the input-overflow witness: width capped at 7, colored
prompt and data roles. -/
def inputScenCfg : Config :=
  { NoColor := false,
    Colors := { Prompt := StyleColor256 10, Data := StyleColor256 7 },
    TUI := { DefaultTUIConfig with MaxWidth := 7 } }

/-- The input render request of the overflow witness: label "name" (4 runes),
active cursor "_" (1 rune), so 4 + 2 + 1 = 7 meets the width budget of 7. -/
def inputScenParams : InputParams :=
  { Label := ("name").data, Value := ("abc").data, Active := true, Width := 0 }

/-- C10 witness: the overflow contract evaluated at label "name", value "abc",
active cursor and width 7. -/
theorem input_overflow_spec_witness :
    inputValue inputScenCfg inputScenParams = []
      ∧ stripANSI (inputLine inputScenCfg inputScenParams)
          = inputScenParams.Label ++ (':' :: ' ' :: [])
              ++ (if inputScenParams.Active then inputScenCfg.TUI.InputCursor else [])
      ∧ (runeCount (stripANSI (inputLine inputScenCfg inputScenParams)) : Int)
          = (runeCount inputScenParams.Label : Int) + 2
              + inputCursorRunes inputScenCfg inputScenParams
      ∧ effectiveWidth inputScenParams.Width inputScenCfg
          ≤ (runeCount (stripANSI (inputLine inputScenCfg inputScenParams)) : Int) :=
  input_overflow_spec inputScenCfg inputScenParams
    (Or.inr (by decide)) (Or.inr (by decide)) (by decide) (by decide)
    (by decide) (by decide)

end Smplog
